import Mathlib

/-!
# TradePulse — verification of the trade-statistics and filtering core

A shallow embedding of the computational core of the TradePulse trade-journal
application (`src/App.tsx`, `src/components/*.tsx`): the Time-Window Resolver,
the Filter Engine, the Statistics Aggregator, the Time-Series Builder and the
Portfolio Allocator, together with theorems settling the specified properties.

Modelling conventions:
* JavaScript strings are modelled as `List Char`; `String.prototype.toUpperCase`
  becomes `List.map Char.toUpper` and `String.prototype.includes` becomes the
  substring test `jsIncludes`.
* JavaScript numbers used for prices, profits and percentages are modelled
  as `ℚ`; quantities are `ℕ`.
* An ISO calendar-date string `"YYYY-MM-DD"` is modelled by its day index since
  the epoch (an `ℤ`); lexicographic order on ISO date strings coincides with
  numeric order on day indices, and `new Date(isoDate).getTime()` becomes
  `dateToTimestamp` (midnight of that day, `day * 86400000` ms).
* Epoch-millisecond instants are `ℤ`.
* A missing `sellPrice` (JavaScript `null`) is `Option.none`.
* The `-Infinity` / `Infinity` scan sentinels of the Statistics Aggregator are
  modelled by `Option.none` in the accumulator fields `best` / `worst`.
* `Array.prototype.sort` with a numeric comparator (stable in JavaScript) is
  modelled by the stable `List.insertionSort`.
-/

/-- A trade record (`Trade` in `src/unnamed/part_000`). -/
structure Trade where
  id : List Char
  symbol : List Char
  buyPrice : ℚ
  sellPrice : Option ℚ
  quantity : ℕ
  date : ℤ
  timestamp : ℤ
  remarks : Option (List Char) := none
deriving DecidableEq, Repr

/-- The derived statistics record (`TradeStats` in `src/unnamed/part_000`). -/
structure TradeStats where
  totalProfit : ℚ
  avgBuyPrice : ℚ
  avgSellPrice : ℚ
  avgProfitPerTrade : ℚ
  winRate : ℚ
  totalTrades : ℕ
  openPositions : ℕ
  bestTrade : ℚ
  worstTrade : ℚ
deriving DecidableEq, Repr

/-- The time-frame selector (`TimeFrame` in `src/unnamed/part_000`). -/
inductive TimeFrame where
  | ALL
  | TODAY
  | WEEK
  | MONTH
  | YTD
  | YEAR
  | CUSTOM
deriving DecidableEq, Repr

/-- Milliseconds in one day. -/
def msPerDay : ℤ := 86400000

/-- The JavaScript maximal date value `new Date(8640000000000000)`
(`src/App.tsx` line 161), the "unbounded future" sentinel. -/
def maxDateMs : ℤ := 8640000000000000

/-- Model of `new Date(isoDateString).getTime()`: the epoch-millisecond instant of the
date's midnight, with the date modelled as a day index. -/
def dateToTimestamp (day : ℤ) : ℤ := day * msPerDay

/-- Model of `end.setHours(23, 59, 59, 999)` applied to the midnight of `day`
(`src/App.tsx` line 186): the last millisecond of that calendar day. -/
def endOfDayTimestamp (day : ℤ) : ℤ := dateToTimestamp day + 86399999

/-- The ambient clock quantities the resolver reads from `new Date()`
(`src/App.tsx` lines 156-157 and the switch cases): `todayDay` is today's local
midnight as a day index, `yearStartDay` is January 1 of the current year, and
`yearAgoDay` is today's date with the year decremented (`setFullYear`). -/
structure Clock where
  todayDay : ℤ
  yearStartDay : ℤ
  yearAgoDay : ℤ

/-- Model of `symbol.includes(sub)`: substring containment on JavaScript strings. -/
def jsIncludes (hay sub : List Char) : Bool :=
  sub.isPrefixOf hay ||
    match hay with
    | [] => false
    | _ :: t => jsIncludes t sub

/-- Model of `String.prototype.toUpperCase` on the `List Char` model. -/
def jsToUpper (s : List Char) : List Char := s.map Char.toUpper

/-- The Time-Window Resolver (`src/App.tsx` lines 159-189): the interval
`[start, end]` the time-frame filter uses, or `none` when `timeFrame` is `ALL`
(in which case the code skips time filtering entirely).  `start` is initialised
to epoch zero and `end` to `maxDateMs`; the switch overwrites `start` for every
frame except `ALL`, and overwrites `end` only in the `CUSTOM` case when a custom
end date is present. -/
def resolveWindow (timeFrame : TimeFrame) (customStartDate customEndDate : Option ℤ)
    (clock : Clock) : Option (ℤ × ℤ) :=
  match timeFrame with
  | .ALL => none
  | .TODAY => some (dateToTimestamp clock.todayDay, maxDateMs)
  | .WEEK => some (dateToTimestamp (clock.todayDay - 7), maxDateMs)
  | .MONTH => some (dateToTimestamp (clock.todayDay - 30), maxDateMs)
  | .YTD => some (dateToTimestamp clock.yearStartDay, maxDateMs)
  | .YEAR => some (dateToTimestamp clock.yearAgoDay, maxDateMs)
  | .CUSTOM =>
      some ((match customStartDate with
             | some d => dateToTimestamp d
             | none => 0),
            (match customEndDate with
             | some d => endOfDayTimestamp d
             | none => maxDateMs))

/-- The symbol filter stage (`src/App.tsx` lines 152-154): when `stockFilter`
is non-empty (JavaScript truthiness), keep the trades whose symbol contains the
upper-cased filter text. -/
def symbolStage (stockFilter : List Char) (trades : List Trade) : List Trade :=
  if stockFilter = [] then trades
  else trades.filter (fun t => jsIncludes t.symbol (jsToUpper stockFilter))

/-- The Filter Engine given an already-resolved interval (`src/App.tsx`
line 191): symbol stage, then inclusive timestamp-interval filter. -/
def filterEngine (trades : List Trade) (stockFilter : List Char)
    (startMs endMs : ℤ) : List Trade :=
  (symbolStage stockFilter trades).filter
    (fun t => startMs ≤ t.timestamp ∧ t.timestamp ≤ endMs)

/-- The `filteredTrades` memo (`src/App.tsx` lines 149-195): symbol stage, then
the interval filter when the resolver produced an interval. -/
def filteredTrades (trades : List Trade) (stockFilter : List Char)
    (timeFrame : TimeFrame) (customStartDate customEndDate : Option ℤ)
    (clock : Clock) : List Trade :=
  match resolveWindow timeFrame customStartDate customEndDate clock with
  | none => symbolStage stockFilter trades
  | some (s, e) => filterEngine trades stockFilter s e

/-- The closed trades of a list (`filteredTrades.filter(t => t.sellPrice !== null)`,
`src/App.tsx` line 214). -/
def closedOf (trades : List Trade) : List Trade :=
  trades.filter (fun t => t.sellPrice.isSome)

/-- The profit of a (closed) trade: `(sellPrice - buyPrice) * quantity`
(`src/App.tsx` line 226; `t.sellPrice as number` is `Option.getD 0` here, and
is only ever applied to trades whose `sellPrice` is present). -/
def tradeProfit (t : Trade) : ℚ := (t.sellPrice.getD 0 - t.buyPrice) * t.quantity

/-- Accumulator of the Statistics Aggregator's `forEach` scan
(`src/App.tsx` lines 218-232).  `best`/`worst` start at `-Infinity`/`Infinity`;
the sentinel is modelled by `none`. -/
structure StatsAcc where
  totalProfit : ℚ
  totalSellPrice : ℚ
  wins : ℕ
  best : Option ℚ
  worst : Option ℚ
deriving DecidableEq, Repr

/-- One step of the scan (`closedTrades.forEach` body, `src/App.tsx`
lines 224-232). -/
def statsStep (acc : StatsAcc) (t : Trade) : StatsAcc :=
  let sellPrice := t.sellPrice.getD 0
  let profit := (sellPrice - t.buyPrice) * t.quantity
  { totalProfit := acc.totalProfit + profit
    totalSellPrice := acc.totalSellPrice + sellPrice
    wins := if profit > 0 then acc.wins + 1 else acc.wins
    best :=
      match acc.best with
      | none => some profit
      | some b => if profit > b then some profit else some b
    worst :=
      match acc.worst with
      | none => some profit
      | some w => if profit < w then some profit else some w }

/-- The whole scan over a list of closed trades, started from the zeroed
accumulator with infinite sentinels. -/
def statsFold (closedTrades : List Trade) : StatsAcc :=
  closedTrades.foldl statsStep ⟨0, 0, 0, none, none⟩

/-- The all-zero statistics returned for an empty input
(`src/App.tsx` lines 199-211). -/
def zeroStats : TradeStats :=
  { totalProfit := 0
    avgBuyPrice := 0
    avgSellPrice := 0
    avgProfitPerTrade := 0
    winRate := 0
    totalTrades := 0
    openPositions := 0
    bestTrade := 0
    worstTrade := 0 }

/-- The Statistics Aggregator (`stats` memo, `src/App.tsx` lines 198-245). -/
def stats (filtered : List Trade) : TradeStats :=
  if filtered.length = 0 then zeroStats
  else
    let totalTrades := filtered.length
    let closedTrades := closedOf filtered
    let totalBuyPrice := (filtered.map Trade.buyPrice).sum
    let acc := statsFold closedTrades
    { totalProfit := acc.totalProfit
      avgBuyPrice := if totalTrades > 0 then totalBuyPrice / totalTrades else 0
      avgSellPrice :=
        if closedTrades.length > 0 then acc.totalSellPrice / closedTrades.length else 0
      avgProfitPerTrade :=
        if closedTrades.length > 0 then acc.totalProfit / closedTrades.length else 0
      winRate :=
        if closedTrades.length > 0 then ((acc.wins : ℚ) / closedTrades.length) * 100 else 0
      totalTrades := totalTrades
      openPositions := totalTrades - closedTrades.length
      bestTrade := acc.best.getD 0
      worstTrade := acc.worst.getD 0 }

/-- One point of the cumulative-profit chart series
(`src/unnamed/part_002`, `chartData` element). -/
structure ChartPoint where
  date : ℤ
  dailyProfit : ℚ
  cumulative : ℚ
deriving DecidableEq, Repr

/-- Per-date realized profit (`dailyProfits[trade.date]` accumulation,
`src/unnamed/part_002` lines 26-36): the sum of profits of the closed trades
carrying exactly that date. -/
def dailyProfit (trades : List Trade) (d : ℤ) : ℚ :=
  (((closedOf trades).filter (fun t => t.date = d)).map tradeProfit).sum

/-- The distinct dates of the closed trades, sorted ascending
(`Object.keys(dailyProfits).sort()`, `src/unnamed/part_002` line 39; on ISO
date strings lexicographic order is chronological order, here numeric order on
day indices). -/
def chartDates (trades : List Trade) : List ℤ :=
  (((closedOf trades).map Trade.date).dedup).insertionSort (· ≤ ·)

/-- The running-total pass (`src/unnamed/part_002` lines 42-50), started from
accumulator `acc` (`runningTotal`, initially 0). -/
def cumulFrom (daily : ℤ → ℚ) (acc : ℚ) : List ℤ → List ChartPoint
  | [] => []
  | d :: ds =>
      { date := d, dailyProfit := daily d, cumulative := acc + daily d }
        :: cumulFrom daily (acc + daily d) ds

/-- The Time-Series Builder's daily/cumulative series (`chartData` memo,
`src/unnamed/part_002` lines 24-51). -/
def chartData (trades : List Trade) : List ChartPoint :=
  cumulFrom (dailyProfit trades) 0 (chartDates trades)

/-- One row of the Portfolio Allocator output
(`src/unnamed/part_000`, `portfolioData` element). -/
structure PortfolioRow where
  symbol : List Char
  shares : ℕ
  amount : ℚ
  avgBuy : ℚ
  percentage : ℚ
deriving DecidableEq, Repr

/-- The distinct symbols of a trade list (the keys of the `summary` record,
`src/unnamed/part_000` lines 43-52; key order is irrelevant because the rows
are sorted afterwards). -/
def tradeSymbols (trades : List Trade) : List (List Char) :=
  (trades.map Trade.symbol).dedup

/-- The field `summary[s].totalShares`: the total quantity over the trades of symbol `s`,
open and closed alike (`src/unnamed/part_000` line 50). -/
def totalShares (trades : List Trade) (s : List Char) : ℕ :=
  ((trades.filter (fun t => t.symbol = s)).map Trade.quantity).sum

/-- The field `summary[s].investedAmount`: the sum of `buyPrice * quantity` over the
trades of symbol `s`, open and closed alike (`src/unnamed/part_000` line 51). -/
def investedAmount (trades : List Trade) (s : List Char) : ℚ :=
  ((trades.filter (fun t => t.symbol = s)).map
    (fun t => t.buyPrice * (t.quantity : ℚ))).sum

/-- The quantity `totalInvested`: the sum of `investedAmount` over the summary's rows
(`src/unnamed/part_000` line 54). -/
def totalInvested (trades : List Trade) : ℚ :=
  ((tradeSymbols trades).map (investedAmount trades)).sum

/-- The row the Portfolio Allocator builds for one symbol
(`src/unnamed/part_000` lines 56-65). -/
def portfolioRow (trades : List Trade) (s : List Char) : PortfolioRow :=
  { symbol := s
    shares := totalShares trades s
    amount := investedAmount trades s
    avgBuy := investedAmount trades s / (totalShares trades s : ℚ)
    percentage :=
      if totalInvested trades > 0
      then investedAmount trades s / totalInvested trades * 100
      else 0 }

/-- The Portfolio Allocator (`portfolioData` memo, `src/unnamed/part_000`
lines 42-66): one row per distinct symbol, sorted by invested amount
descending (`.sort((a, b) => b.amount - a.amount)`, a stable sort). -/
def portfolioData (trades : List Trade) : List PortfolioRow :=
  ((tradeSymbols trades).map (portfolioRow trades)).insertionSort
    (fun a b => b.amount ≤ a.amount)

/-- The in-place sort `trades.sort((a, b) => b.timestamp - a.timestamp)` that
`TradeHistory` performs on the array it receives while rendering
(`src/components/TradeHistory.tsx` line 41).  JavaScript `Array.prototype.sort`
is stable and mutates the receiver: after the render, the caller's array holds
exactly this list. -/
def tradeHistorySort (trades : List Trade) : List Trade :=
  trades.insertionSort (fun a b => b.timestamp ≤ a.timestamp)

/-- The data entered in the trade form: a `Trade` minus the repository-managed
`id` and `timestamp` fields (`Omit<Trade, 'id' | 'timestamp'>`,
`src/App.tsx` line 109). -/
structure TradeData where
  symbol : List Char
  buyPrice : ℚ
  sellPrice : Option ℚ
  quantity : ℕ
  date : ℤ
  remarks : Option (List Char) := none
deriving DecidableEq, Repr

/-- The handler `handleSaveTrade` (`src/App.tsx` lines 109-130): editing replaces the
matching record, keeping its `id` and recomputing `timestamp` from the saved
`date`; creating appends a fresh record whose `timestamp` is likewise computed
from `date` (`new Date(tradeData.date).getTime()`). -/
def handleSaveTrade (trades : List Trade) (editing : Option (List Char))
    (freshId : List Char) (d : TradeData) : List Trade :=
  match editing with
  | some editId =>
      trades.map (fun t =>
        if t.id = editId then
          { id := t.id, symbol := d.symbol, buyPrice := d.buyPrice
            sellPrice := d.sellPrice, quantity := d.quantity, date := d.date
            timestamp := dateToTimestamp d.date, remarks := d.remarks }
        else t)
  | none =>
      trades ++
        [{ id := freshId, symbol := d.symbol, buyPrice := d.buyPrice
           sellPrice := d.sellPrice, quantity := d.quantity, date := d.date
           timestamp := dateToTimestamp d.date, remarks := d.remarks }]

/-- One trade produced by `generateLargeDataset` (`src/App.tsx` lines 22-62),
with the random draws (symbol, prices, quantity and the random instant
`tradeDate = now - timeOffset`) abstracted into parameters.  The source sets
`date: tradeDate.toISOString().split('T')[0]` — the calendar day of the
instant — but `timestamp: tradeDate.getTime()` — the raw instant itself,
time-of-day included. -/
def generatedTrade (id symbol : List Char) (buyPrice : ℚ) (sellPrice : Option ℚ)
    (quantity : ℕ) (instant : ℤ) : Trade :=
  { id := id
    symbol := symbol
    buyPrice := buyPrice
    sellPrice := sellPrice
    quantity := quantity
    date := instant / msPerDay
    timestamp := instant
    remarks := some "Automated 10-Year Test Data".toList }

/-! ## Bridge lemmas for the Statistics Aggregator scan -/

/-- The best-so-far update of the scan, isolated: `if profit > best then profit`. -/
def bestStep (ob : Option ℚ) (p : ℚ) : Option ℚ :=
  match ob with
  | none => some p
  | some b => if p > b then some p else some b

/-- The worst-so-far update of the scan, isolated: `if profit < worst then profit`. -/
def worstStep (ob : Option ℚ) (p : ℚ) : Option ℚ :=
  match ob with
  | none => some p
  | some w => if p < w then some p else some w

theorem statsStep_eq (acc : StatsAcc) (t : Trade) :
    statsStep acc t =
      { totalProfit := acc.totalProfit + tradeProfit t
        totalSellPrice := acc.totalSellPrice + t.sellPrice.getD 0
        wins := if 0 < tradeProfit t then acc.wins + 1 else acc.wins
        best := bestStep acc.best (tradeProfit t)
        worst := worstStep acc.worst (tradeProfit t) } := rfl

theorem foldl_statsStep_totalProfit (l : List Trade) :
    ∀ acc : StatsAcc,
      (l.foldl statsStep acc).totalProfit = acc.totalProfit + (l.map tradeProfit).sum := by
  induction l with
  | nil => intro acc; simp
  | cons t l ih =>
      intro acc
      simp only [List.foldl_cons, List.map_cons, List.sum_cons, ih, statsStep_eq]
      ring

theorem foldl_statsStep_totalSellPrice (l : List Trade) :
    ∀ acc : StatsAcc,
      (l.foldl statsStep acc).totalSellPrice
        = acc.totalSellPrice + (l.map (fun t => t.sellPrice.getD 0)).sum := by
  induction l with
  | nil => intro acc; simp
  | cons t l ih =>
      intro acc
      simp only [List.foldl_cons, List.map_cons, List.sum_cons, ih, statsStep_eq]
      ring

theorem foldl_statsStep_wins (l : List Trade) :
    ∀ acc : StatsAcc,
      (l.foldl statsStep acc).wins
        = acc.wins + l.countP (fun t => decide (0 < tradeProfit t)) := by
  induction l with
  | nil => intro acc; simp
  | cons t l ih =>
      intro acc
      simp only [List.foldl_cons, List.countP_cons, ih, statsStep_eq]
      by_cases h : 0 < tradeProfit t
      · rw [if_pos h]; simp [h]; omega
      · rw [if_neg h]; simp [h]

theorem foldl_statsStep_best (l : List Trade) :
    ∀ acc : StatsAcc,
      (l.foldl statsStep acc).best = (l.map tradeProfit).foldl bestStep acc.best := by
  induction l with
  | nil => intro acc; simp
  | cons t l ih =>
      intro acc
      simp only [List.foldl_cons, List.map_cons, ih, statsStep_eq]

theorem foldl_statsStep_worst (l : List Trade) :
    ∀ acc : StatsAcc,
      (l.foldl statsStep acc).worst = (l.map tradeProfit).foldl worstStep acc.worst := by
  induction l with
  | nil => intro acc; simp
  | cons t l ih =>
      intro acc
      simp only [List.foldl_cons, List.map_cons, ih, statsStep_eq]

theorem ite_gt_eq_max (b p : ℚ) : (if p > b then p else b) = max b p := by
  rcases le_or_lt p b with h | h
  · rw [if_neg (not_lt.mpr h), max_eq_left h]
  · rw [if_pos h, max_eq_right h.le]

theorem ite_lt_eq_min (w p : ℚ) : (if p < w then p else w) = min w p := by
  rcases le_or_lt w p with h | h
  · rw [if_neg (not_lt.mpr h), min_eq_left h]
  · rw [if_pos h, min_eq_right h.le]

theorem bestStep_some (b p : ℚ) : bestStep (some b) p = some (max b p) := by
  show (if p > b then some p else some b) = some (max b p)
  rw [← apply_ite some, ite_gt_eq_max]

theorem worstStep_some (w p : ℚ) : worstStep (some w) p = some (min w p) := by
  show (if p < w then some p else some w) = some (min w p)
  rw [← apply_ite some, ite_lt_eq_min]

theorem foldl_bestStep_some (ps : List ℚ) :
    ∀ b : ℚ, ps.foldl bestStep (some b) = some (ps.foldl max b) := by
  induction ps with
  | nil => intro b; simp
  | cons p ps ih =>
      intro b
      rw [List.foldl_cons, bestStep_some, ih, List.foldl_cons]

theorem foldl_worstStep_some (ps : List ℚ) :
    ∀ w : ℚ, ps.foldl worstStep (some w) = some (ps.foldl min w) := by
  induction ps with
  | nil => intro w; simp
  | cons p ps ih =>
      intro w
      rw [List.foldl_cons, worstStep_some, ih, List.foldl_cons]

theorem le_foldl_max (ps : List ℚ) : ∀ b : ℚ, b ≤ ps.foldl max b := by
  induction ps with
  | nil => intro b; simp
  | cons p ps ih =>
      intro b
      exact le_trans (le_max_left b p) (ih (max b p))

theorem mem_le_foldl_max (ps : List ℚ) :
    ∀ b : ℚ, ∀ p ∈ ps, p ≤ ps.foldl max b := by
  induction ps with
  | nil => intro b p hp; simp at hp
  | cons q ps ih =>
      intro b p hp
      rcases List.mem_cons.mp hp with rfl | hp
      · exact le_trans (le_max_right b p) (le_foldl_max ps (max b p))
      · exact ih (max b q) p hp

theorem foldl_max_mem (ps : List ℚ) :
    ∀ b : ℚ, ps.foldl max b = b ∨ ps.foldl max b ∈ ps := by
  induction ps with
  | nil => intro b; simp
  | cons p ps ih =>
      intro b
      rcases ih (max b p) with h | h
      · rcases max_choice b p with hm | hm
        · exact Or.inl (by rw [List.foldl_cons, h, hm])
        · exact Or.inr (by rw [List.foldl_cons, h, hm]; exact List.mem_cons_self p ps)
      · exact Or.inr (List.mem_cons_of_mem p h)

theorem foldl_min_le (ps : List ℚ) : ∀ w : ℚ, ps.foldl min w ≤ w := by
  induction ps with
  | nil => intro w; simp
  | cons p ps ih =>
      intro w
      exact le_trans (ih (min w p)) (min_le_left w p)

theorem foldl_min_le_mem (ps : List ℚ) :
    ∀ w : ℚ, ∀ p ∈ ps, ps.foldl min w ≤ p := by
  induction ps with
  | nil => intro w p hp; simp at hp
  | cons q ps ih =>
      intro w p hp
      rcases List.mem_cons.mp hp with rfl | hp
      · exact le_trans (foldl_min_le ps (min w p)) (min_le_right w p)
      · exact ih (min w q) p hp

theorem foldl_min_mem (ps : List ℚ) :
    ∀ w : ℚ, ps.foldl min w = w ∨ ps.foldl min w ∈ ps := by
  induction ps with
  | nil => intro w; simp
  | cons p ps ih =>
      intro w
      rcases ih (min w p) with h | h
      · rcases min_choice w p with hm | hm
        · exact Or.inl (by rw [List.foldl_cons, h, hm])
        · exact Or.inr (by rw [List.foldl_cons, h, hm]; exact List.mem_cons_self p ps)
      · exact Or.inr (List.mem_cons_of_mem p h)

theorem bestStep_none (p : ℚ) : bestStep none p = some p := rfl

theorem worstStep_none (p : ℚ) : worstStep none p = some p := rfl

theorem getD_foldl_bestStep (ps : List ℚ) (h : ps ≠ []) :
    ((ps.foldl bestStep none).getD 0 ∈ ps)
      ∧ ∀ p ∈ ps, p ≤ (ps.foldl bestStep none).getD 0 := by
  cases ps with
  | nil => exact absurd rfl h
  | cons p ps' =>
      rw [List.foldl_cons, bestStep_none, foldl_bestStep_some, Option.getD_some]
      constructor
      · rcases foldl_max_mem ps' p with h1 | h1
        · rw [h1]; exact List.mem_cons_self p ps'
        · exact List.mem_cons_of_mem _ h1
      · intro q hq
        rcases List.mem_cons.mp hq with rfl | hq
        · exact le_foldl_max ps' q
        · exact mem_le_foldl_max ps' p q hq

theorem getD_foldl_worstStep (ps : List ℚ) (h : ps ≠ []) :
    ((ps.foldl worstStep none).getD 0 ∈ ps)
      ∧ ∀ p ∈ ps, (ps.foldl worstStep none).getD 0 ≤ p := by
  cases ps with
  | nil => exact absurd rfl h
  | cons p ps' =>
      rw [List.foldl_cons, worstStep_none, foldl_worstStep_some, Option.getD_some]
      constructor
      · rcases foldl_min_mem ps' p with h1 | h1
        · rw [h1]; exact List.mem_cons_self p ps'
        · exact List.mem_cons_of_mem _ h1
      · intro q hq
        rcases List.mem_cons.mp hq with rfl | hq
        · exact foldl_min_le ps' q
        · exact foldl_min_le_mem ps' p q hq

theorem stats_nil : stats [] = zeroStats := by simp [stats]

theorem stats_totalProfit_eq (ts : List Trade) :
    (stats ts).totalProfit = ((closedOf ts).map tradeProfit).sum := by
  by_cases h : ts.length = 0
  · rw [List.length_eq_zero.mp h, stats_nil]
    simp [zeroStats, closedOf]
  · simp only [stats, if_neg h, statsFold]
    rw [foldl_statsStep_totalProfit]
    simp

theorem stats_winRate_eq (ts : List Trade) :
    (stats ts).winRate
      = if 0 < (closedOf ts).length
        then (((closedOf ts).countP (fun t => decide (0 < tradeProfit t)) : ℚ)
                / ((closedOf ts).length : ℚ)) * 100
        else 0 := by
  by_cases h : ts.length = 0
  · rw [List.length_eq_zero.mp h, stats_nil]
    simp [zeroStats, closedOf]
  · simp only [stats, if_neg h, statsFold]
    rw [foldl_statsStep_wins]
    simp

theorem stats_bestTrade_eq (ts : List Trade) :
    (stats ts).bestTrade = (((closedOf ts).map tradeProfit).foldl bestStep none).getD 0 := by
  by_cases h : ts.length = 0
  · rw [List.length_eq_zero.mp h, stats_nil]
    simp [zeroStats, closedOf]
  · simp only [stats, if_neg h, statsFold]
    rw [foldl_statsStep_best]

theorem stats_worstTrade_eq (ts : List Trade) :
    (stats ts).worstTrade = (((closedOf ts).map tradeProfit).foldl worstStep none).getD 0 := by
  by_cases h : ts.length = 0
  · rw [List.length_eq_zero.mp h, stats_nil]
    simp [zeroStats, closedOf]
  · simp only [stats, if_neg h, statsFold]
    rw [foldl_statsStep_worst]

/-! ## Scenario inputs from the specification -/

/-- Scenario 1 of the specification: two closed trades,
buy 100 / sell 150 / qty 10 on 2024-01-01 (epoch day 19723) and
buy 50 / sell 40 / qty 5 on 2024-01-02 (epoch day 19724). -/
def scenario1Trades : List Trade :=
  [ { id := "s1a".toList, symbol := "AAA".toList, buyPrice := 100,
      sellPrice := some 150, quantity := 10, date := 19723,
      timestamp := dateToTimestamp 19723 },
    { id := "s1b".toList, symbol := "BBB".toList, buyPrice := 50,
      sellPrice := some 40, quantity := 5, date := 19724,
      timestamp := dateToTimestamp 19724 } ]

/-- Scenario 2 of the specification: a single open position,
buy 10 / no sell price / qty 1. -/
def scenario2Trades : List Trade :=
  [ { id := "s2a".toList, symbol := "CCC".toList, buyPrice := 10,
      sellPrice := none, quantity := 1, date := 19723,
      timestamp := dateToTimestamp 19723 } ]

/-- A single closed losing trade: buy 100 / sell 50 / qty 1. -/
def losingTrade : Trade :=
  { id := "lx".toList, symbol := "LOSS".toList, buyPrice := 100,
    sellPrice := some 50, quantity := 1, date := 19723,
    timestamp := dateToTimestamp 19723 }

/-- C1: the Statistics Aggregator computes each closed trade's profit as
`(sellPrice - buyPrice) * quantity`; `totalProfit` is the sum of these profits
over the closed trades, `bestTrade`/`worstTrade` are the maximum/minimum such
profit, and `winRate` is `100 *` (count of closed trades with strictly positive
profit) `/` (number of closed trades); on the two-trade input of Scenario 1 it
returns `totalProfit = 450`, `winRate = 50`, `bestTrade = 500`,
`worstTrade = -50`. -/
theorem stats_aggregator_correct :
    (∀ ts : List Trade,
      (stats ts).totalProfit = ((closedOf ts).map tradeProfit).sum
      ∧ (stats ts).winRate
          = 100 * ((closedOf ts).countP (fun t => decide (0 < tradeProfit t)) : ℚ)
              / ((closedOf ts).length : ℚ)
      ∧ (closedOf ts ≠ [] →
          ((stats ts).bestTrade ∈ (closedOf ts).map tradeProfit
              ∧ ∀ p ∈ (closedOf ts).map tradeProfit, p ≤ (stats ts).bestTrade)
          ∧ ((stats ts).worstTrade ∈ (closedOf ts).map tradeProfit
              ∧ ∀ p ∈ (closedOf ts).map tradeProfit, (stats ts).worstTrade ≤ p)))
    ∧ (stats scenario1Trades).totalProfit = 450
    ∧ (stats scenario1Trades).winRate = 50
    ∧ (stats scenario1Trades).bestTrade = 500
    ∧ (stats scenario1Trades).worstTrade = -50 := by
  have main : ∀ ts : List Trade,
      (stats ts).totalProfit = ((closedOf ts).map tradeProfit).sum
      ∧ (stats ts).winRate
          = 100 * ((closedOf ts).countP (fun t => decide (0 < tradeProfit t)) : ℚ)
              / ((closedOf ts).length : ℚ)
      ∧ (closedOf ts ≠ [] →
          ((stats ts).bestTrade ∈ (closedOf ts).map tradeProfit
              ∧ ∀ p ∈ (closedOf ts).map tradeProfit, p ≤ (stats ts).bestTrade)
          ∧ ((stats ts).worstTrade ∈ (closedOf ts).map tradeProfit
              ∧ ∀ p ∈ (closedOf ts).map tradeProfit, (stats ts).worstTrade ≤ p)) := by
    intro ts
    refine ⟨stats_totalProfit_eq ts, ?_, ?_⟩
    · rw [stats_winRate_eq]
      by_cases h : 0 < (closedOf ts).length
      · rw [if_pos h]; ring
      · rw [if_neg h]
        have : (closedOf ts).length = 0 := by omega
        rw [this]
        simp
    · intro h
      have hne : (closedOf ts).map tradeProfit ≠ [] := by
        simpa using h
      rw [stats_bestTrade_eq, stats_worstTrade_eq]
      exact ⟨getD_foldl_bestStep _ hne, getD_foldl_worstStep _ hne⟩
  refine ⟨main, ?_, ?_, ?_, ?_⟩ <;>
    norm_num [stats, statsFold, statsStep, closedOf, tradeProfit, zeroStats,
      scenario1Trades, dateToTimestamp, msPerDay, List.filter, List.foldl]

/-- Witness for C1: the general statement instantiated at the Scenario 1 input,
discharging the no-closed-trades hypothesis there. -/
theorem stats_aggregator_correct_witness :
    closedOf scenario1Trades ≠ []
      ∧ (stats scenario1Trades).bestTrade ∈ (closedOf scenario1Trades).map tradeProfit
      ∧ (stats scenario1Trades).totalProfit = 450 := by
  have h := stats_aggregator_correct
  have hne : closedOf scenario1Trades ≠ [] := by decide
  exact ⟨hne, (((h.1 scenario1Trades).2.2 hne).1).1, h.2.1⟩

/-- C2: the Statistics Aggregator never fails: every field of `stats []` is 0,
and for any list with no closed trade the profit-derived fields
(`totalProfit`, `avgSellPrice`, `avgProfitPerTrade`, `winRate`, `bestTrade`,
`worstTrade`) are all exactly 0 — the infinite scan sentinels are clamped and
every division guarded. -/
theorem stats_no_closed_all_zero :
    ((stats []).totalProfit = 0 ∧ (stats []).avgBuyPrice = 0
      ∧ (stats []).avgSellPrice = 0 ∧ (stats []).avgProfitPerTrade = 0
      ∧ (stats []).winRate = 0 ∧ (stats []).totalTrades = 0
      ∧ (stats []).openPositions = 0 ∧ (stats []).bestTrade = 0
      ∧ (stats []).worstTrade = 0)
    ∧ (∀ ts : List Trade, closedOf ts = [] →
        (stats ts).totalProfit = 0 ∧ (stats ts).avgSellPrice = 0
          ∧ (stats ts).avgProfitPerTrade = 0 ∧ (stats ts).winRate = 0
          ∧ (stats ts).bestTrade = 0 ∧ (stats ts).worstTrade = 0) := by
  constructor
  · rw [stats_nil]
    simp [zeroStats]
  · intro ts h
    by_cases hlen : ts.length = 0
    · rw [List.length_eq_zero.mp hlen, stats_nil]
      simp [zeroStats]
    · simp only [stats, if_neg hlen, statsFold, h]
      simp

/-- Witness for C2: the Scenario 2 input (one open position) has no closed
trade, and every profit-derived statistic is zero on it. -/
theorem stats_no_closed_all_zero_witness :
    (stats scenario2Trades).totalProfit = 0 ∧ (stats scenario2Trades).winRate = 0
      ∧ (stats scenario2Trades).bestTrade = 0
      ∧ (stats scenario2Trades).worstTrade = 0 := by
  have h := stats_no_closed_all_zero.2 scenario2Trades (by decide)
  exact ⟨h.1, h.2.2.2.1, h.2.2.2.2.1, h.2.2.2.2.2⟩

/-- Counterexample to C3 as stated: on a list holding one closed losing trade
the win rate is 0 although a closed trade exists, so "winRate equals 0 exactly
when the list contains no closed trades" is false. -/
theorem winRate_zero_iff_no_closed_false :
    ¬ ((stats [losingTrade]).winRate = 0 ↔ closedOf [losingTrade] = []) := by
  intro h
  have h0 : (stats [losingTrade]).winRate = 0 := by
    norm_num [stats, statsFold, statsStep, closedOf, zeroStats, losingTrade,
      List.filter, List.foldl]
  have := h.mp h0
  exact absurd this (by decide)

/-- C3 (amended): for every trade list, `winRate` lies in `[0, 100]`, and
`winRate = 0` exactly when no closed trade has strictly positive profit. -/
theorem winRate_bounds_and_zero_iff (ts : List Trade) :
    0 ≤ (stats ts).winRate ∧ (stats ts).winRate ≤ 100
      ∧ ((stats ts).winRate = 0 ↔ ∀ t ∈ closedOf ts, tradeProfit t ≤ 0) := by
  rw [stats_winRate_eq]
  by_cases h : 0 < (closedOf ts).length
  · rw [if_pos h]
    set w : ℕ := (closedOf ts).countP (fun t => decide (0 < tradeProfit t)) with hw
    set n : ℕ := (closedOf ts).length with hn
    have hwn : w ≤ n := List.countP_le_length _
    have hnpos : (0 : ℚ) < n := by exact_mod_cast h
    refine ⟨?_, ?_, ?_⟩
    · positivity
    · have hdiv : (w : ℚ) / n ≤ 1 := by
        rw [div_le_one hnpos]
        exact_mod_cast hwn
      calc (w : ℚ) / n * 100 ≤ 1 * 100 := by
            apply mul_le_mul_of_nonneg_right hdiv (by norm_num)
        _ = 100 := by norm_num
    · constructor
      · intro h0
        have hw0 : (w : ℚ) = 0 := by
          rcases mul_eq_zero.mp h0 with h1 | h1
          · rcases div_eq_zero_iff.mp h1 with h2 | h2
            · exact h2
            · exact absurd h2 (ne_of_gt hnpos)
          · norm_num at h1
        have : w = 0 := by exact_mod_cast hw0
        have := List.countP_eq_zero.mp (hw ▸ this)
        intro t ht
        have := this t ht
        simpa using this
      · intro hall
        have : w = 0 := by
          rw [hw]
          apply List.countP_eq_zero.mpr
          intro t ht
          simpa using hall t ht
        rw [this]
        norm_num
  · rw [if_neg h]
    have hnil : closedOf ts = [] := by
      rw [← List.length_eq_zero]
      omega
    refine ⟨le_refl 0, by norm_num, ?_⟩
    simp [hnil]

/-! ## Filter Engine and Time-Window Resolver -/

theorem jsIncludes_nil (hay : List Char) : jsIncludes hay [] = true := by
  cases hay <;> rfl

theorem mem_symbolStage {t : Trade} {sub : List Char} {ts : List Trade}
    (h : t ∈ symbolStage sub ts) : t ∈ ts := by
  unfold symbolStage at h
  split at h
  · exact h
  · exact (List.mem_filter.mp h).1

theorem filter_and_true {l : List Trade} {s e : ℤ}
    (h : ∀ t ∈ l, t.timestamp ≤ e) :
    l.filter (fun t => s ≤ t.timestamp ∧ t.timestamp ≤ e)
      = l.filter (fun t => s ≤ t.timestamp) := by
  apply List.filter_congr
  intro t ht
  exact decide_eq_decide.mpr (and_iff_left (h t ht))

/-- C4: the Filter Engine returns exactly the trades whose symbol contains the
upper-cased substring (every trade passes when the substring is empty) and
whose timestamp lies in the inclusive interval, in original relative order
(it is literally a `filter` of its input); it is idempotent, hence a pure
function of its arguments. -/
theorem filterEngine_spec (ts : List Trade) (sub : List Char) (s e : ℤ) :
    filterEngine ts sub s e
        = ts.filter (fun t =>
            jsIncludes t.symbol (jsToUpper sub)
              && (decide (s ≤ t.timestamp) && decide (t.timestamp ≤ e)))
      ∧ (∀ t : Trade, t ∈ filterEngine ts sub s e ↔
            t ∈ ts ∧ jsIncludes t.symbol (jsToUpper sub) = true
              ∧ s ≤ t.timestamp ∧ t.timestamp ≤ e)
      ∧ filterEngine (filterEngine ts sub s e) sub s e = filterEngine ts sub s e
      ∧ (sub = [] → ∀ t : Trade, jsIncludes t.symbol (jsToUpper sub) = true) := by
  have key : ∀ l : List Trade,
      filterEngine l sub s e
        = l.filter (fun t =>
            jsIncludes t.symbol (jsToUpper sub)
              && (decide (s ≤ t.timestamp) && decide (t.timestamp ≤ e))) := by
    intro l
    unfold filterEngine symbolStage
    by_cases hsub : sub = []
    · rw [if_pos hsub]
      apply List.filter_congr
      intro t _
      rw [hsub]
      simp [jsIncludes_nil, jsToUpper, Bool.decide_and]
    · rw [if_neg hsub, List.filter_filter]
      apply List.filter_congr
      intro t _
      simp [Bool.decide_and, Bool.and_comm]
  refine ⟨key ts, ?_, ?_, ?_⟩
  · intro t
    rw [key ts, List.mem_filter]
    simp [and_assoc]
  · rw [key ts, key (ts.filter _), List.filter_filter]
    apply List.filter_congr
    intro t _
    rw [Bool.and_self]
  · intro hsub t
    rw [hsub]
    simpa [jsToUpper] using jsIncludes_nil t.symbol

/-- The trade dated exactly on the custom end date of Scenario 4
(2024-02-05, epoch day 19758). -/
def s4included : Trade :=
  { id := "s4a".toList, symbol := "DDD".toList, buyPrice := 10,
    sellPrice := none, quantity := 1, date := 19758,
    timestamp := dateToTimestamp 19758 }

/-- The trade dated one day past the custom end date of Scenario 4
(2024-02-06, epoch day 19759). -/
def s4excluded : Trade :=
  { id := "s4b".toList, symbol := "EEE".toList, buyPrice := 10,
    sellPrice := none, quantity := 1, date := 19759,
    timestamp := dateToTimestamp 19759 }

/-- The Scenario 4 input: one trade on the custom end date, one the day after. -/
def scenario4Trades : List Trade := [s4included, s4excluded]

/-- C5: with `CUSTOM`, the resolver takes the parsed custom start date as lower
bound (epoch zero when absent) and normalizes the custom end date to the end of
that calendar day, 23:59:59.999 (the unbounded-future sentinel when absent);
the end-of-day bound admits a timestamp at a day's midnight exactly when that
day is at most the end date, so filtering 2024-02-01..2024-02-05 keeps a trade
dated 2024-02-05 and drops one dated 2024-02-06. -/
theorem custom_window_spec :
    (∀ (clock : Clock) (s e : ℤ),
        resolveWindow .CUSTOM (some s) (some e) clock
          = some (dateToTimestamp s, endOfDayTimestamp e))
      ∧ (∀ (clock : Clock) (e : ℤ),
          resolveWindow .CUSTOM none (some e) clock
            = some (0, endOfDayTimestamp e))
      ∧ (∀ (clock : Clock) (s : ℤ),
          resolveWindow .CUSTOM (some s) none clock
            = some (dateToTimestamp s, maxDateMs))
      ∧ (∀ clock : Clock,
          resolveWindow .CUSTOM none none clock = some (0, maxDateMs))
      ∧ (∀ e x : ℤ, dateToTimestamp x ≤ endOfDayTimestamp e ↔ x ≤ e)
      ∧ (∀ clock : Clock,
          filteredTrades scenario4Trades [] .CUSTOM (some 19754) (some 19758) clock
            = [s4included]) := by
  refine ⟨fun _ _ _ => rfl, fun _ _ => rfl, fun _ _ => rfl, fun _ => rfl, ?_, ?_⟩
  · intro e x
    simp only [dateToTimestamp, endOfDayTimestamp, msPerDay]
    omega
  · intro clock
    show filterEngine scenario4Trades [] (dateToTimestamp 19754) (endOfDayTimestamp 19758)
        = [s4included]
    decide

theorem filteredTrades_some_window (ts : List Trade) (sub : List Char)
    (f : TimeFrame) (cs ce : Option ℤ) (clock : Clock) (s e : ℤ)
    (hres : resolveWindow f cs ce clock = some (s, e)) :
    filteredTrades ts sub f cs ce clock = filterEngine ts sub s e := by
  unfold filteredTrades
  rw [hres]

/-- C6: every non-`CUSTOM`, non-`ALL` frame resolves to the unbounded-future
sentinel as upper bound, so (for timestamps within the JavaScript date range)
the combined filter applies only a lower bound and never excludes a
future-dated trade; and `ALL` applies no time filtering at all. -/
theorem noncustom_frames_spec :
    (∀ (f : TimeFrame) (cs ce : Option ℤ) (clock : Clock),
        f ≠ .ALL → f ≠ .CUSTOM →
          (resolveWindow f cs ce clock).map Prod.snd = some maxDateMs
          ∧ ∀ s e : ℤ, resolveWindow f cs ce clock = some (s, e) →
              ∀ (ts : List Trade) (sub : List Char),
                (∀ t ∈ ts, t.timestamp ≤ maxDateMs) →
                  filteredTrades ts sub f cs ce clock
                    = (symbolStage sub ts).filter (fun t => s ≤ t.timestamp))
    ∧ (∀ (ts : List Trade) (sub : List Char) (cs ce : Option ℤ) (clock : Clock),
        filteredTrades ts sub .ALL cs ce clock = symbolStage sub ts) := by
  constructor
  · intro f cs ce clock hALL hCUSTOM
    have hsnd : (resolveWindow f cs ce clock).map Prod.snd = some maxDateMs := by
      cases f with
      | ALL => exact absurd rfl hALL
      | CUSTOM => exact absurd rfl hCUSTOM
      | TODAY => rfl
      | WEEK => rfl
      | MONTH => rfl
      | YTD => rfl
      | YEAR => rfl
    refine ⟨hsnd, ?_⟩
    intro s e hres ts sub hbound
    have he : e = maxDateMs := by
      rw [hres] at hsnd
      simpa using hsnd
    rw [filteredTrades_some_window ts sub f cs ce clock s e hres, he]
    unfold filterEngine
    exact filter_and_true (fun t ht => hbound t (mem_symbolStage ht))
  · intro ts sub cs ce clock
    rfl

/-- A trade dated in the future relative to the witness clock (whose `today`
is epoch day 19760): epoch day 19761. -/
def futureTrade : Trade :=
  { id := "fut".toList, symbol := "FFF".toList, buyPrice := 1,
    sellPrice := none, quantity := 1, date := 19761,
    timestamp := dateToTimestamp 19761 }

/-- Witness for C6: under the `WEEK` frame with a concrete clock, a
future-dated trade survives the filter — the upper bound is the sentinel. -/
theorem noncustom_frames_spec_witness :
    filteredTrades [futureTrade] [] .WEEK none none ⟨19760, 19723, 19395⟩
      = [futureTrade] := by
  have h := (noncustom_frames_spec.1 .WEEK none none ⟨19760, 19723, 19395⟩
    (by decide) (by decide)).2 (dateToTimestamp (19760 - 7)) maxDateMs rfl
    [futureTrade] [] (by decide)
  rw [h]
  decide

/-! ## Time-Series Builder -/

theorem sum_map_ite_of_mem {κ : Type} [DecidableEq κ] (v : ℚ) :
    ∀ (ks : List κ) (x : κ), ks.Nodup → x ∈ ks →
      (ks.map (fun k => if x = k then v else 0)).sum = v := by
  intro ks
  induction ks with
  | nil => intro x _ hx; simp at hx
  | cons k ks ih =>
      intro x hnd hx
      rcases List.mem_cons.mp hx with rfl | hx
      · have hxks : x ∉ ks := (List.nodup_cons.mp hnd).1
        have hz : (ks.map (fun k' => if x = k' then v else 0)).sum = 0 := by
          apply List.sum_eq_zero
          intro y hy
          rcases List.mem_map.mp hy with ⟨k', hk', rfl⟩
          have hne : x ≠ k' := by
            intro hh
            rw [hh] at hxks
            exact hxks hk'
          rw [if_neg hne]
        simp only [List.map_cons, List.sum_cons]
        rw [hz, add_zero]
        simp
      · have hk : x ≠ k := by
          intro hh
          apply (List.nodup_cons.mp hnd).1
          rw [← hh]
          exact hx
        simp only [List.map_cons, List.sum_cons, if_neg hk]
        rw [zero_add]
        exact ih x (List.nodup_cons.mp hnd).2 hx

theorem sum_fiber {α κ : Type} [DecidableEq κ] (key : α → κ) (val : α → ℚ) :
    ∀ l : List α,
      (((l.map key).dedup).map
          (fun k => ((l.filter (fun a => key a = k)).map val).sum)).sum
        = (l.map val).sum := by
  intro l
  induction l with
  | nil => simp
  | cons a l ih =>
      have hsplit : ∀ k : κ,
          (((a :: l).filter (fun x => key x = k)).map val).sum
            = (if key a = k then val a else 0)
                + ((l.filter (fun x => key x = k)).map val).sum := by
        intro k
        rw [List.filter_cons]
        by_cases hk : key a = k <;> simp [hk]
      by_cases hmem : key a ∈ l.map key
      · rw [List.map_cons, List.dedup_cons_of_mem hmem,
          List.map_congr_left (fun k _ => hsplit k), List.sum_map_add,
          List.map_cons, List.sum_cons, ih,
          sum_map_ite_of_mem (val a) _ (key a) (List.nodup_dedup _)
            (List.mem_dedup.mpr hmem)]
      · rw [List.map_cons, List.dedup_cons_of_not_mem hmem, List.map_cons,
          List.sum_cons, hsplit (key a), if_pos rfl]
        have hfib : (l.filter (fun x => key x = key a)) = [] := by
          apply List.filter_eq_nil_iff.mpr
          intro x hx
          simp only [decide_eq_true_eq]
          intro hh
          exact hmem (hh ▸ List.mem_map_of_mem key hx)
        rw [hfib]
        have htail :
            (((l.map key).dedup).map
                (fun k => (((a :: l).filter (fun x => key x = k)).map val).sum)).sum
              = (((l.map key).dedup).map
                  (fun k => ((l.filter (fun x => key x = k)).map val).sum)).sum := by
          rw [List.map_congr_left (fun k _ => hsplit k), List.sum_map_add]
          have hz :
              (((l.map key).dedup).map (fun k => if key a = k then val a else 0)).sum
                = 0 := by
            apply List.sum_eq_zero
            intro y hy
            rcases List.mem_map.mp hy with ⟨k, hk, rfl⟩
            have : key a ≠ k := by
              intro hh
              exact hmem (List.mem_dedup.mp (hh ▸ hk))
            rw [if_neg this]
          rw [hz, zero_add]
        rw [htail, ih, List.map_cons, List.sum_cons]
        simp

theorem cumulFrom_map_date (daily : ℤ → ℚ) :
    ∀ (ds : List ℤ) (acc : ℚ), (cumulFrom daily acc ds).map ChartPoint.date = ds := by
  intro ds
  induction ds with
  | nil => intro acc; rfl
  | cons d ds ih => intro acc; simp [cumulFrom, ih]

theorem cumulFrom_getLast (daily : ℤ → ℚ) :
    ∀ (ds : List ℤ) (acc : ℚ), ds ≠ [] →
      ((cumulFrom daily acc ds).getLast?).map ChartPoint.cumulative
        = some (acc + (ds.map daily).sum) := by
  intro ds
  induction ds with
  | nil => intro acc h; exact absurd rfl h
  | cons d ds ih =>
      intro acc _
      cases ds with
      | nil => simp [cumulFrom]
      | cons d' ds' =>
          have hne : cumulFrom daily (acc + daily d) (d' :: ds') ≠ [] := by
            intro hh
            have := cumulFrom_map_date daily (d' :: ds') (acc + daily d)
            rw [hh] at this
            exact List.cons_ne_nil d' ds' this.symm
          show ((cumulFrom daily acc (d :: d' :: ds')).getLast?).map _ = _
          rw [show cumulFrom daily acc (d :: d' :: ds')
              = { date := d, dailyProfit := daily d, cumulative := acc + daily d }
                  :: cumulFrom daily (acc + daily d) (d' :: ds') from rfl]
          rcases List.exists_cons_of_ne_nil hne with ⟨p, ps, hps⟩
          rw [hps, List.getLast?_cons_cons, ← hps, ih (acc + daily d) (by simp)]
          simp [add_assoc]

theorem closedOf_idem (ts : List Trade) : closedOf (closedOf ts) = closedOf ts := by
  unfold closedOf
  rw [List.filter_filter]
  apply List.filter_congr
  intro t _
  rw [Bool.and_self]

theorem dailyProfit_closedOf (ts : List Trade) :
    dailyProfit (closedOf ts) = dailyProfit ts := by
  funext d
  unfold dailyProfit
  rw [closedOf_idem]

theorem chartDates_closedOf (ts : List Trade) :
    chartDates (closedOf ts) = chartDates ts := by
  unfold chartDates
  rw [closedOf_idem]

/-- C7: the Time-Series Builder emits the empty series on the empty list,
ignores open trades entirely, lists its points in ascending date order, and
its cumulative value at the last point equals the `totalProfit` the Statistics
Aggregator computes on the same trade list. -/
theorem chartData_cumulative_spec :
    chartData [] = []
      ∧ (∀ ts : List Trade, chartData ts = chartData (closedOf ts))
      ∧ (∀ ts : List Trade, ((chartData ts).map ChartPoint.date).Sorted (· ≤ ·))
      ∧ (∀ ts : List Trade, closedOf ts ≠ [] →
          ((chartData ts).getLast?).map ChartPoint.cumulative
            = some ((stats ts).totalProfit)) := by
  refine ⟨rfl, ?_, ?_, ?_⟩
  · intro ts
    unfold chartData
    rw [dailyProfit_closedOf, chartDates_closedOf]
  · intro ts
    rw [chartData, cumulFrom_map_date]
    exact List.sorted_insertionSort (· ≤ ·) _
  · intro ts h
    have hdates : chartDates ts ≠ [] := by
      intro hh
      apply h
      have hperm := List.perm_insertionSort (α := ℤ) (· ≤ ·)
        (((closedOf ts).map Trade.date).dedup)
      rw [chartDates] at hh
      rw [hh] at hperm
      have hd : ((closedOf ts).map Trade.date).dedup = [] := hperm.symm.eq_nil
      have : (closedOf ts).map Trade.date = [] := by
        rwa [List.dedup_eq_nil] at hd
      exact List.map_eq_nil_iff.mp this
    rw [chartData, cumulFrom_getLast _ _ _ hdates, stats_totalProfit_eq]
    have hperm : ((chartDates ts).map (dailyProfit ts)).sum
        = ((((closedOf ts).map Trade.date).dedup).map (dailyProfit ts)).sum := by
      apply List.Perm.sum_eq
      apply List.Perm.map
      exact List.perm_insertionSort (· ≤ ·) _
    rw [hperm]
    have hfib := sum_fiber Trade.date tradeProfit (closedOf ts)
    rw [show (((closedOf ts).map Trade.date).dedup).map (dailyProfit ts)
        = (((closedOf ts).map Trade.date).dedup).map
            (fun k => (((closedOf ts).filter (fun a => a.date = k)).map tradeProfit).sum)
      from rfl, hfib, zero_add]

/-- Witness for C7: on the Scenario 1 input the last cumulative chart value
equals the aggregator's total profit. -/
theorem chartData_cumulative_spec_witness :
    ((chartData scenario1Trades).getLast?).map ChartPoint.cumulative
      = some ((stats scenario1Trades).totalProfit) := by
  exact chartData_cumulative_spec.2.2.2 scenario1Trades (by decide)

/-! ## Portfolio Allocator -/

theorem mem_portfolioData {ts : List Trade} {r : PortfolioRow}
    (h : r ∈ portfolioData ts) :
    ∃ s ∈ tradeSymbols ts, r = portfolioRow ts s := by
  have hmem : r ∈ (tradeSymbols ts).map (portfolioRow ts) :=
    (List.perm_insertionSort _ _).mem_iff.mp h
  rcases List.mem_map.mp hmem with ⟨s, hs, rfl⟩
  exact ⟨s, hs, rfl⟩

/-- C8: the Portfolio Allocator returns one row per distinct symbol, sorted by
invested amount descending; each row's `investedAmount` sums
`buyPrice * quantity` over that symbol's trades, open and closed alike; the
percentages sum to exactly 100 whenever the total invested is positive, and are
all 0 when the total invested is zero. -/
theorem portfolioData_spec :
    (∀ ts : List Trade,
        ((portfolioData ts).map PortfolioRow.symbol).Perm (tradeSymbols ts))
      ∧ (∀ ts : List Trade,
          (portfolioData ts).Pairwise (fun a b => b.amount ≤ a.amount))
      ∧ (∀ ts : List Trade, ∀ r ∈ portfolioData ts,
          r.amount
            = ((ts.filter (fun t => t.symbol = r.symbol)).map
                (fun t => t.buyPrice * (t.quantity : ℚ))).sum)
      ∧ (∀ ts : List Trade, 0 < totalInvested ts →
          ((portfolioData ts).map PortfolioRow.percentage).sum = 100)
      ∧ (∀ ts : List Trade, totalInvested ts = 0 →
          ∀ r ∈ portfolioData ts, r.percentage = 0) := by
  refine ⟨?_, ?_, ?_, ?_, ?_⟩
  · intro ts
    have h1 : ((portfolioData ts).map PortfolioRow.symbol).Perm
        (((tradeSymbols ts).map (portfolioRow ts)).map PortfolioRow.symbol) :=
      List.Perm.map _ (List.perm_insertionSort _ _)
    have h2 : ((tradeSymbols ts).map (portfolioRow ts)).map PortfolioRow.symbol
        = tradeSymbols ts := by
      rw [List.map_map]
      simp [Function.comp_def, portfolioRow]
    rw [← h2]
    exact h1
  · intro ts
    haveI : IsTotal PortfolioRow (fun a b => b.amount ≤ a.amount) :=
      ⟨fun a b => le_total b.amount a.amount⟩
    haveI : IsTrans PortfolioRow (fun a b => b.amount ≤ a.amount) :=
      ⟨fun _ _ _ hab hbc => le_trans hbc hab⟩
    exact List.sorted_insertionSort _ _
  · intro ts r hr
    rcases mem_portfolioData hr with ⟨s, _, rfl⟩
    rfl
  · intro ts hpos
    have hperm : ((portfolioData ts).map PortfolioRow.percentage).sum
        = (((tradeSymbols ts).map (portfolioRow ts)).map PortfolioRow.percentage).sum :=
      List.Perm.sum_eq (List.Perm.map _ (List.perm_insertionSort _ _))
    rw [hperm, List.map_map]
    have hcong : (tradeSymbols ts).map (PortfolioRow.percentage ∘ portfolioRow ts)
        = (tradeSymbols ts).map
            (fun s => investedAmount ts s * ((totalInvested ts)⁻¹ * 100)) := by
      apply List.map_congr_left
      intro s _
      show (portfolioRow ts s).percentage = _
      unfold portfolioRow
      rw [if_pos hpos]
      show investedAmount ts s / totalInvested ts * 100
          = investedAmount ts s * ((totalInvested ts)⁻¹ * 100)
      rw [div_eq_mul_inv, mul_assoc]
    rw [hcong, List.sum_map_mul_right]
    have : ((tradeSymbols ts).map (investedAmount ts)).sum = totalInvested ts := rfl
    rw [this, ← mul_assoc, mul_inv_cancel₀ (ne_of_gt hpos), one_mul]
  · intro ts hzero r hr
    rcases mem_portfolioData hr with ⟨s, _, rfl⟩
    show (if totalInvested ts > 0 then _ else 0) = 0
    rw [if_neg (by rw [hzero]; exact lt_irrefl 0)]

/-- Witness for C8: on the Scenario 2 input (one symbol, 10 invested) the
percentages sum to 100, and on the empty list (total invested zero) every
row's percentage is 0. -/
theorem portfolioData_spec_witness :
    (0 < totalInvested scenario2Trades
      ∧ ((portfolioData scenario2Trades).map PortfolioRow.percentage).sum = 100)
    ∧ (totalInvested ([] : List Trade) = 0
      ∧ ∀ r ∈ portfolioData ([] : List Trade), r.percentage = 0) := by
  have hpos : 0 < totalInvested scenario2Trades := by
    norm_num [totalInvested, tradeSymbols, investedAmount, scenario2Trades,
      List.dedup_cons_of_not_mem, List.filter]
  exact ⟨⟨hpos, portfolioData_spec.2.2.2.1 scenario2Trades hpos⟩,
    ⟨rfl, portfolioData_spec.2.2.2.2 [] rfl⟩⟩

/-! ## Repository operations and the timestamp invariant -/

/-- The save path does maintain the timestamp invariant: any trade in the
output of `handleSaveTrade` either was already in the repository or has its
`timestamp` recomputed from its `date`. -/
theorem handleSaveTrade_recomputes_timestamp (trades : List Trade)
    (editing : Option (List Char)) (freshId : List Char) (d : TradeData) :
    ∀ t ∈ handleSaveTrade trades editing freshId d,
      t ∈ trades ∨ t.timestamp = dateToTimestamp t.date := by
  intro t ht
  cases editing with
  | none =>
      rcases List.mem_append.mp ht with h | h
      · exact Or.inl h
      · rcases List.mem_singleton.mp h with rfl
        exact Or.inr rfl
  | some editId =>
      rcases List.mem_map.mp ht with ⟨u, hu, rfl⟩
      by_cases hid : u.id = editId
      · rw [if_pos hid]
        exact Or.inr rfl
      · rw [if_neg hid]
        exact Or.inl hu

/-- C9 fails on the code: `generateLargeDataset` keeps the raw random instant
as `timestamp` while `date` is that instant's calendar day, so the injected
repository contents violate `timestamp = dateToTimestamp date`.  Evaluated at
the instant 86400001 ms (1970-01-02T00:00:00.001): the trade's `date` is epoch
day 1 whose midnight is 86400000 ms, but its `timestamp` is 86400001 ms. -/
theorem generatedTrade_timestamp_mismatch :
    (generatedTrade "g0".toList "TSLA".toList 200 none 1 86400001).date = 1
      ∧ (generatedTrade "g0".toList "TSLA".toList 200 none 1 86400001).timestamp
          = 86400001
      ∧ dateToTimestamp (generatedTrade "g0".toList "TSLA".toList 200 none 1 86400001).date
          = 86400000
      ∧ (generatedTrade "g0".toList "TSLA".toList 200 none 1 86400001).timestamp
          ≠ dateToTimestamp
              (generatedTrade "g0".toList "TSLA".toList 200 none 1 86400001).date := by
  refine ⟨rfl, rfl, rfl, ?_⟩
  decide

/-! ## TradeHistory's in-place sort -/

/-- Earlier-dated trade used in the C10 reorder example. -/
def histEarlier : Trade :=
  { id := "h1".toList, symbol := "GGG".toList, buyPrice := 1,
    sellPrice := none, quantity := 1, date := 19723,
    timestamp := dateToTimestamp 19723 }

/-- Later-dated trade used in the C10 reorder example. -/
def histLater : Trade :=
  { id := "h2".toList, symbol := "HHH".toList, buyPrice := 1,
    sellPrice := none, quantity := 1, date := 19724,
    timestamp := dateToTimestamp 19724 }

/-- C10: rendering `TradeHistory` sorts the received array in place by
descending timestamp: the array afterwards is a permutation of its previous
contents (no record added, dropped or field-modified), ordered by descending
timestamp, and on an ascending-timestamp input it differs from the original
order — the caller's filtered view is left permuted. -/
theorem tradeHistorySort_in_place_permutes :
    (∀ ts : List Trade, (tradeHistorySort ts).Perm ts)
      ∧ (∀ ts : List Trade,
          (tradeHistorySort ts).Pairwise (fun a b => b.timestamp ≤ a.timestamp))
      ∧ tradeHistorySort [histEarlier, histLater] = [histLater, histEarlier]
      ∧ tradeHistorySort [histEarlier, histLater] ≠ [histEarlier, histLater] := by
  refine ⟨?_, ?_, by decide, by decide⟩
  · intro ts
    exact List.perm_insertionSort _ _
  · intro ts
    haveI : IsTotal Trade (fun a b => b.timestamp ≤ a.timestamp) :=
      ⟨fun a b => le_total b.timestamp a.timestamp⟩
    haveI : IsTrans Trade (fun a b => b.timestamp ≤ a.timestamp) :=
      ⟨fun _ _ _ hab hbc => le_trans hbc hab⟩
    exact List.sorted_insertionSort _ _
